import Mathlib

/-!
Shallow embedding of the statesman state-machine library (statesman.py),
covering the transition execution engine (`Transition.__call__`), transition
construction and validation, the entity model (State, Event, Action), the
parameter-matching invoker, event registration, and the defensive-copy
collection accessors.

Callables are modelled by their observable behaviour: an action or hook is a
value recording what its invocation produces (a returned boolean or a raised
exception). An execution of a transition produces a trace of hook and action
invocations, a result (returned value or propagated exception), and the final
current-state pointer of the machine.
-/

namespace Statesman

/-- Python exception values relevant to the engine: AssertionError (caught by
the guard phases), RuntimeError (raised on re-execution), and arbitrary other
exceptions identified by a code. -/
inductive Exc where
  | assertionError
  | runtimeError
  | err (code : Nat)
deriving DecidableEq

/-- Result of invoking a Python callable: a normally returned value (reduced
to its truthiness, which is all the engine inspects) or a raised exception. -/
inductive Res where
  | val (b : Bool)
  | exc (e : Exc)
deriving DecidableEq

/-- Whether the invocation returned normally (did not raise). -/
def Res.isVal : Res → Bool
  | .val _ => true
  | .exc _ => false

/-- `Action.Types` from statesman.py: the six action type tags. -/
inductive ActionType where
  | entry
  | exit
  | guard
  | before
  | on
  | after
deriving DecidableEq

/-- An Action: a callable attached to a State or Event, with a type tag.
The callable is modelled by its behaviour `result`; `id` identifies the
action in execution traces. -/
structure Action where
  id : Nat
  type : ActionType
  result : Res
deriving DecidableEq

/-- `BaseModel._get_actions`: the sublist of actions with a given type tag. -/
def getActions (actions : List Action) (ty : ActionType) : List Action :=
  actions.filter (fun a => decide (a.type = ty))

/-- A State: `name`, optional `description`, and the attached entry and exit
actions (kept in the private `_actions` attribute in the source). -/
structure State where
  name : String
  description : Option String := none
  actions : List Action := []
deriving DecidableEq

/-- `Transition.Types`: external, internal, and self transitions. -/
inductive TrType where
  | external
  | internal
  | self
deriving DecidableEq

/-- An Event: `name`, optional `description`, source states (a `none` entry
marks an initialization event), `target` state, optional default transition
type, and the attached guard/before/on/after actions. -/
structure Event where
  name : String
  description : Option String := none
  sources : List (Option State) := []
  target : State
  transitionType : Option TrType := none
  actions : List Action := []
deriving DecidableEq

/-- The four overridable machine-wide hooks of StateMachine, modelled by
their behaviour. The defaults mirror the base class: `guard_transition`
returns True and the other hooks return None (truthiness irrelevant). -/
structure Hooks where
  guardTransition : Res := .val true
  beforeTransition : Res := .val true
  onTransition : Res := .val true
  afterTransition : Res := .val true
deriving DecidableEq

/-- A Transition record. `startedAt`, `finishedAt` and `cancelled` are `none`
until the transition is called; timestamps are abstract clock ticks. -/
structure Transition where
  source : Option State := none
  target : State
  event : Option Event := none
  type : TrType
  startedAt : Option Nat := none
  finishedAt : Option Nat := none
  cancelled : Option Bool := none
deriving DecidableEq

/-- One entry of an execution trace: a machine-wide hook invocation or the
invocation of an attached action (identified by id and type tag). -/
inductive TraceEntry where
  | guardHook
  | beforeHook
  | onHook
  | afterHook
  | act (id : Nat) (type : ActionType)
deriving DecidableEq

/-- The invocations made by one `asyncio.gather` fan-out over a group of
actions: every action in the group is started, in list order. -/
def actionTrace (actions : List Action) : List TraceEntry :=
  actions.map (fun a => .act a.id a.type)

/-- The outcome of `asyncio.gather` over a group of actions: the first
exception in group order propagates; otherwise the list of returned values
is produced in order. -/
def gatherResults : List Action → Except Exc (List Bool)
  | [] => .ok []
  | a :: rest =>
    match a.result with
    | .exc e => .error e
    | .val b =>
      match gatherResults rest with
      | .error e => .error e
      | .ok bs => .ok (b :: bs)

/-- `Transition._run_actions` applied to the optional event of the
transition: the group of event actions with the given type tag, empty when
the transition has no event. -/
def eventActions (ev : Option Event) (ty : ActionType) : List Action :=
  match ev with
  | none => []
  | some e => getActions e.actions ty

/-- `Transition._run_actions` applied to an optional state (the source may be
`none` for an initial transition): the group of state actions with the given
type tag. -/
def stateActions (s : Option State) (ty : ActionType) : List Action :=
  match s with
  | none => []
  | some st => getActions st.actions ty

/-- `functools.reduce(lambda x, y: x and y, results, True)`: conjunction of
the guard results with initial value True (True on the empty list). -/
def andAll (bs : List Bool) : Bool :=
  bs.foldl (fun x y => x && y) true

/-- `self.type in (Transition.Types.external, Transition.Types.self)`: the
transition types that run exit and entry actions. -/
def doExitEntry : TrType → Bool
  | .external => true
  | .self => true
  | .internal => false

/-- The exit-action group of a transition: exit actions of the source state,
skipped entirely for internal transitions. -/
def exitGroup (t : Transition) : List Action :=
  if doExitEntry t.type then stateActions t.source .exit else []

/-- The entry-action group of a transition: entry actions of the target
state, skipped entirely for internal transitions. -/
def entryGroup (t : Transition) : List Action :=
  if doExitEntry t.type then stateActions (some t.target) .entry else []

/-- The mutation phase of `Transition.__call__` (lines 854-863): exit actions
of the source (external/self only), then the `on_transition` hook, then the
`on` event actions, then entry actions of the target (external/self only).
Returns the trace of invocations made and the outcome: the first exception
raised in the phase, or success. The caller reverts the state pointer on
error. -/
def mutationPhase (h : Hooks) (t : Transition) : List TraceEntry × Except Exc Unit :=
  match gatherResults (exitGroup t) with
  | .error e => (actionTrace (exitGroup t), .error e)
  | .ok _ =>
    match h.onTransition with
    | .exc e => (actionTrace (exitGroup t) ++ [.onHook], .error e)
    | .val _ =>
      match gatherResults (eventActions t.event .on) with
      | .error e =>
        (actionTrace (exitGroup t) ++ [.onHook] ++ actionTrace (eventActions t.event .on), .error e)
      | .ok _ =>
        match gatherResults (entryGroup t) with
        | .error e =>
          (actionTrace (exitGroup t) ++ [.onHook] ++ actionTrace (eventActions t.event .on)
            ++ actionTrace (entryGroup t), .error e)
        | .ok _ =>
          (actionTrace (exitGroup t) ++ [.onHook] ++ actionTrace (eventActions t.event .on)
            ++ actionTrace (entryGroup t), .ok ())

/-- The observable outcome of one invocation of the Transition call operator:
the returned value or propagated exception, the trace of hook and action
invocations, the final current-state pointer of the machine, and the
post-call transition bookkeeping fields. -/
structure CallResult where
  ret : Res
  trace : List TraceEntry
  final : Option State
  cancelled : Option Bool
  startedAt : Option Nat
  finishedAt : Option Nat
deriving DecidableEq

/-- `Transition.__call__` (statesman.py lines 821-872). `cur` is the current
state of the owning machine when the call is made; `now` is the clock at the
start of the call. Both `trigger` and `enter_state` return the value of this
call directly. Phases in source order: re-execution check; lifecycle start;
`cancelled = False`; `guard_transition` hook (False return or AssertionError
cancels); `before_transition` hook; guard event actions (gathered, AND-ed,
False or AssertionError cancels); before event actions; mutation phase with
state-pointer revert on any exception; after event actions; `after_transition`
hook. -/
def transCall (h : Hooks) (t : Transition) (cur : Option State) (now : Nat) : CallResult :=
  if t.startedAt.isSome then
    ⟨.exc .runtimeError, [], cur, t.cancelled, t.startedAt, t.finishedAt⟩
  else
    match h.guardTransition with
    | .val false => ⟨.val false, [.guardHook], cur, some true, some now, some (now + 1)⟩
    | .exc .assertionError => ⟨.val false, [.guardHook], cur, some true, some now, some (now + 1)⟩
    | .exc e => ⟨.exc e, [.guardHook], cur, some false, some now, some (now + 1)⟩
    | .val true =>
      match h.beforeTransition with
      | .exc e => ⟨.exc e, [.guardHook, .beforeHook], cur, some false, some now, some (now + 1)⟩
      | .val _ =>
        match gatherResults (eventActions t.event .guard) with
        | .error .assertionError =>
          ⟨.val false, [.guardHook, .beforeHook] ++ actionTrace (eventActions t.event .guard),
            cur, some true, some now, some (now + 1)⟩
        | .error e =>
          ⟨.exc e, [.guardHook, .beforeHook] ++ actionTrace (eventActions t.event .guard),
            cur, some false, some now, some (now + 1)⟩
        | .ok bs =>
          if andAll bs then
            match gatherResults (eventActions t.event .before) with
            | .error e =>
              ⟨.exc e, [.guardHook, .beforeHook] ++ actionTrace (eventActions t.event .guard)
                ++ actionTrace (eventActions t.event .before),
                cur, some false, some now, some (now + 1)⟩
            | .ok _ =>
              match mutationPhase h t with
              | (mt, .error e) =>
                ⟨.exc e, [.guardHook, .beforeHook] ++ actionTrace (eventActions t.event .guard)
                  ++ actionTrace (eventActions t.event .before) ++ mt,
                  t.source, some false, some now, some (now + 1)⟩
              | (mt, .ok _) =>
                match gatherResults (eventActions t.event .after) with
                | .error e =>
                  ⟨.exc e, [.guardHook, .beforeHook] ++ actionTrace (eventActions t.event .guard)
                    ++ actionTrace (eventActions t.event .before) ++ mt
                    ++ actionTrace (eventActions t.event .after),
                    some t.target, some false, some now, some (now + 1)⟩
                | .ok _ =>
                  match h.afterTransition with
                  | .exc e =>
                    ⟨.exc e, [.guardHook, .beforeHook] ++ actionTrace (eventActions t.event .guard)
                      ++ actionTrace (eventActions t.event .before) ++ mt
                      ++ actionTrace (eventActions t.event .after) ++ [.afterHook],
                      some t.target, some false, some now, some (now + 1)⟩
                  | .val _ =>
                    ⟨.val true, [.guardHook, .beforeHook] ++ actionTrace (eventActions t.event .guard)
                      ++ actionTrace (eventActions t.event .before) ++ mt
                      ++ actionTrace (eventActions t.event .after) ++ [.afterHook],
                      some t.target, some false, some now, some (now + 1)⟩
          else
            ⟨.val false, [.guardHook, .beforeHook] ++ actionTrace (eventActions t.event .guard),
              cur, some true, some now, some (now + 1)⟩

/-!
State equality and hashing (`State.__eq__`, `State.__hash__`).

In the source, comparing a State against a StateEnum member compares the
names, comparing against a str compares the name to the string, and any
other comparand falls through to `super().__eq__`: the pydantic v1
BaseModel equality, which compares the dicts of declared fields, namely
`name` and `description` (attached actions live in a private attribute and
are excluded). `__hash__` is `hash(self.name)`; the hash is modelled by the
name itself, which preserves the property that equal names give equal
hashes.
-/

/-- Pydantic BaseModel field equality between two State records: equality of
the `name` and `description` fields (the dict of declared fields). -/
def pyStateEq (a b : State) : Bool :=
  a.name == b.name && a.description == b.description

/-- A value a State can be compared against: a raw string, a StateEnum
member (carrying a name and a description value), or another State. -/
inductive CmpValue where
  | str (s : String)
  | enumMember (name : String) (value : String)
  | state (s : State)
deriving DecidableEq

/-- `State.__eq__` (statesman.py lines 220-226). -/
def stateEqPy (s : State) : CmpValue → Bool
  | .str o => s.name == o
  | .enumMember n _ => s.name == n
  | .state o => pyStateEq s o

/-- `State.__hash__` is `hash(self.name)`: modelled by the name. -/
def stateHash (s : State) : String := s.name

/-!
Transition construction (`Transition.__init__` with the two root
validators `_set_default_type_from_event` and `_validate_type`).
-/

/-- `values['target'] == values['source']` in `Transition._validate_type`:
a State compared to `None` is never equal; otherwise pydantic field
equality applies. -/
def pyStateEqOpt (a : State) : Option State → Bool
  | none => false
  | some b => pyStateEq a b

/-- `Transition._set_default_type_from_event`: an explicitly supplied type
wins; otherwise the type defaults to the transition type configured on the
event, or external. -/
def resolveType (event : Option Event) : Option TrType → TrType
  | some ty => ty
  | none =>
    match event with
    | some e => e.transitionType.getD .external
    | none => .external

/-- `Transition._validate_type` as a predicate: internal and self
transitions require source and target to compare equal, external
transitions require them to differ. -/
def validTypeFor (source : Option State) (target : State) : TrType → Bool
  | .internal => pyStateEqOpt target source
  | .self => pyStateEqOpt target source
  | .external => !pyStateEqOpt target source

/-- The type invariant carried by a constructed Transition. -/
def typeInvariant (t : Transition) : Bool :=
  validTypeFor t.source t.target t.type

/-- Transition construction: the type is resolved from the event default if
not supplied, then `_validate_type` runs; an assertion failure there becomes
a pydantic ValidationError, so no Transition value is produced. -/
def mkTransition (source : Option State) (target : State) (event : Option Event)
    (ty : Option TrType) : Option Transition :=
  if validTypeFor source target (resolveType event ty) then
    some { source := source, target := target, event := event,
           type := resolveType event ty }
  else
    none

/-!
The parameter-matching invoker (`_parameters_matching_signature`,
statesman.py lines 1146-1196). Parameter values are abstracted to naturals;
the keyword pool is an association list with distinct keys, mirroring a
Python dict.
-/

/-- `inspect.Parameter.kind`: the five parameter kinds. -/
inductive ParamKind where
  | positionalOnly
  | positionalOrKeyword
  | varPositional
  | keywordOnly
  | varKeyword
deriving DecidableEq

/-- One signature parameter: a name and a kind. -/
structure Param where
  name : String
  kind : ParamKind
deriving DecidableEq

/-- The mutable state of the matching loop: the remaining positional pool
(args deque), the remaining keyword pool, and the matched collections built
so far. -/
structure MatchState where
  argsC : List Nat
  kwargsC : List (String × Nat)
  matchedArgs : List Nat
  matchedKwargs : List (String × Nat)
deriving DecidableEq

/-- Lookup of a name in the keyword pool (`name in kwargs_copy`). -/
def kwLookup (kws : List (String × Nat)) (n : String) : Option Nat :=
  (kws.find? (fun p => p.1 == n)).map Prod.snd

/-- `kwargs_copy.pop(name)`: remove the entry with the given key (keys are
distinct in a dict). -/
def kwRemove (kws : List (String × Nat)) (n : String) : List (String × Nat) :=
  kws.filter (fun p => !(p.1 == n))

/-- The body of the matching loop of `_parameters_matching_signature` for
one parameter. -/
def matchStep (s : MatchState) (p : Param) : MatchState :=
  match p.kind with
  | .positionalOnly =>
    match s.argsC with
    | [] => s
    | a :: rest => { s with argsC := rest, matchedArgs := s.matchedArgs ++ [a] }
  | .positionalOrKeyword =>
    match kwLookup s.kwargsC p.name with
    | some v =>
      match s.argsC with
      | [] =>
        { s with kwargsC := kwRemove s.kwargsC p.name,
                 matchedKwargs := s.matchedKwargs ++ [(p.name, v)] }
      | _ :: rest =>
        { s with argsC := rest,
                 kwargsC := kwRemove s.kwargsC p.name,
                 matchedKwargs := s.matchedKwargs ++ [(p.name, v)] }
    | none =>
      match s.argsC with
      | [] => s
      | a :: rest => { s with argsC := rest, matchedArgs := s.matchedArgs ++ [a] }
  | .varPositional =>
    { s with matchedArgs := s.matchedArgs ++ s.argsC, argsC := [] }
  | .keywordOnly =>
    match kwLookup s.kwargsC p.name with
    | some v =>
      { s with kwargsC := kwRemove s.kwargsC p.name,
               matchedKwargs := s.matchedKwargs ++ [(p.name, v)] }
    | none => s
  | .varKeyword =>
    { s with matchedKwargs := s.matchedKwargs ++ s.kwargsC, kwargsC := [] }

/-- `_parameters_matching_signature`: filter out self and cls, fold the
matching step over the remaining parameters, return the matched positional
and keyword collections. -/
def parametersMatchingSignature (params : List Param) (args : List Nat)
    (kwargs : List (String × Nat)) : List Nat × List (String × Nat) :=
  let ps := params.filter (fun p => !(p.name == "self") && !(p.name == "cls"))
  let fin := ps.foldl matchStep ⟨args, kwargs, [], []⟩
  (fin.matchedArgs, fin.matchedKwargs)

/-!
The StateMachine registry and `add_event` (statesman.py lines 555-563),
together with the active-state sentinel (`State.active`, lines 193-197) and
`Event.states` (lines 326-329).
-/

/-- The registries of a StateMachine: the ordered state list and event
list. -/
structure Machine where
  states : List State := []
  events : List Event := []
deriving DecidableEq

/-- `State.active()`: the active-state sentinel. -/
def activeState : State :=
  { name := "__active__", description := some "The active state at transition time." }

/-- `Event.states`: `(set(self.sources) | set with self.target) - set with None`,
listed as the non-null sources followed by the target. -/
def eventStates (e : Event) : List State :=
  e.sources.filterMap id ++ [e.target]

/-- Python set membership for State values: a member is found when some
element has an equal hash (equal name, since the hash is the name hash) and
compares equal under `State.__eq__`; pydantic field equality already forces
equal names, so membership reduces to field equality with some element. -/
def inStateSet (s : State) (l : List State) : Bool :=
  l.any (fun s2 => pyStateEq s s2)

/-- `StateMachine.get_event` restricted to a plain string name. -/
def getEventByName (m : Machine) (n : String) : Option Event :=
  m.events.find? (fun e => e.name == n)

/-- The two ValueError variants `add_event` can raise: a duplicate event
name, or an event referencing states unknown to the machine. -/
inductive AddEventErr where
  | duplicateName
  | unknownStates
deriving DecidableEq

/-- `StateMachine.add_event`: duplicate-name check first, then the
unknown-referenced-states check (`event.states - set(self.states)`), then
the append. An error leaves the machine unchanged, since both raises happen
before the append. Returns the post-call machine and the raised error, if
any. -/
def addEvent (m : Machine) (e : Event) : Machine × Option AddEventErr :=
  if (getEventByName m e.name).isSome then
    (m, some .duplicateName)
  else if (eventStates e).any (fun s => !inStateSet s m.states) then
    (m, some .unknownStates)
  else
    ({ m with events := m.events ++ [e] }, none)

/-!
The defensive-copy collection accessors. `StateMachine.states`,
`StateMachine.events`, `State.actions` / `Event.actions` and
`HistoryMixin.history` all return `collection.copy()`: a fresh list object
holding the same elements, so that in-place mutation of the returned list
never touches the collection owned by the machine. Python list objects and
aliasing are modelled by a store mapping references to list contents.
-/

/-- A heap of list objects: contents by reference, plus the next fresh
reference. -/
structure Store (α : Type) where
  mem : Nat → List α
  next : Nat

/-- Allocate a fresh list object with the given contents. -/
def Store.alloc {α : Type} (σ : Store α) (xs : List α) : Nat × Store α :=
  (σ.next, ⟨fun i => if i = σ.next then xs else σ.mem i, σ.next + 1⟩)

/-- `list.copy()`: allocate a fresh list object with the same elements as
the object behind `r`. -/
def copyList {α : Type} (σ : Store α) (r : Nat) : Nat × Store α :=
  σ.alloc (σ.mem r)

/-- `StateMachine.states` (lines 501-504): `self._states.copy()`. -/
def statesProperty {α : Type} (σ : Store α) (statesRef : Nat) : Nat × Store α :=
  copyList σ statesRef

/-- `StateMachine.events` (lines 550-553): `self._events.copy()`. -/
def eventsProperty {α : Type} (σ : Store α) (eventsRef : Nat) : Nat × Store α :=
  copyList σ eventsRef

/-- `State.actions` (lines 231-234) and `Event.actions`:
`self._actions.copy()`. -/
def actionsProperty {α : Type} (σ : Store α) (actionsRef : Nat) : Nat × Store α :=
  copyList σ actionsRef

/-- `HistoryMixin.history` (lines 1220-1224): `self._transitions.copy()`. -/
def historyProperty {α : Type} (σ : Store α) (transitionsRef : Nat) : Nat × Store α :=
  copyList σ transitionsRef

/-- In-place mutation of the list object behind `r` (append, remove, clear,
assignment to an index, and so on). -/
def mutateList {α : Type} (σ : Store α) (r : Nat) (f : List α → List α) : Store α :=
  ⟨fun i => if i = r then f (σ.mem i) else σ.mem i, σ.next⟩

/-!
Helper lemmas about action groups, traces, gather, and the guard
conjunction.
-/

theorem getActions_type_eq {l : List Action} {ty : ActionType} {a : Action}
    (ha : a ∈ getActions l ty) : a.type = ty := by
  have h2 := (List.mem_filter.mp ha).2
  simpa using h2

theorem mem_actionTrace {l : List Action} {e : TraceEntry}
    (he : e ∈ actionTrace l) : ∃ a ∈ l, e = .act a.id a.type := by
  rcases List.mem_map.mp he with ⟨a, ha, rfl⟩
  exact ⟨a, ha, rfl⟩

theorem act_mem_actionTrace {l : List Action} {a : Action} (ha : a ∈ l) :
    TraceEntry.act a.id a.type ∈ actionTrace l :=
  List.mem_map.mpr ⟨a, ha, rfl⟩

theorem mem_actionTrace_getActions {l : List Action} {ty : ActionType} {e : TraceEntry}
    (he : e ∈ actionTrace (getActions l ty)) : ∃ i, e = .act i ty := by
  rcases mem_actionTrace he with ⟨a, ha, rfl⟩
  exact ⟨a.id, by rw [getActions_type_eq ha]⟩

theorem mem_actionTrace_eventActions {ev : Option Event} {ty : ActionType} {e : TraceEntry}
    (he : e ∈ actionTrace (eventActions ev ty)) : ∃ i, e = .act i ty := by
  cases ev with
  | none => simp [eventActions, actionTrace] at he
  | some e0 => exact mem_actionTrace_getActions he

theorem mem_actionTrace_stateActions {s : Option State} {ty : ActionType} {e : TraceEntry}
    (he : e ∈ actionTrace (stateActions s ty)) : ∃ i, e = .act i ty := by
  cases s with
  | none => simp [stateActions, actionTrace] at he
  | some s0 => exact mem_actionTrace_getActions he

theorem act_not_mem_eventActions {ev : Option Event} {ty ty2 : ActionType} {i : Nat}
    (hne : ty2 ≠ ty) : TraceEntry.act i ty2 ∉ actionTrace (eventActions ev ty) := by
  intro he
  rcases mem_actionTrace_eventActions he with ⟨j, hj⟩
  cases hj
  exact hne rfl

theorem mem_actionTrace_exitGroup {t : Transition} {e : TraceEntry}
    (he : e ∈ actionTrace (exitGroup t)) :
    doExitEntry t.type = true ∧ ∃ i, e = .act i .exit := by
  unfold exitGroup at he
  cases hd : doExitEntry t.type with
  | false => rw [hd] at he; simp [actionTrace] at he
  | true =>
    rw [hd] at he
    simp only [if_true] at he
    exact ⟨rfl, mem_actionTrace_stateActions he⟩

theorem mem_actionTrace_entryGroup {t : Transition} {e : TraceEntry}
    (he : e ∈ actionTrace (entryGroup t)) :
    doExitEntry t.type = true ∧ ∃ i, e = .act i .entry := by
  unfold entryGroup at he
  cases hd : doExitEntry t.type with
  | false => rw [hd] at he; simp [actionTrace] at he
  | true =>
    rw [hd] at he
    simp only [if_true] at he
    exact ⟨rfl, mem_actionTrace_stateActions he⟩

theorem foldl_and_acc (bs : List Bool) (a : Bool) :
    bs.foldl (fun x y => x && y) a = (a && bs.foldl (fun x y => x && y) true) := by
  induction bs generalizing a with
  | nil => simp
  | cons b bs ih =>
    simp only [List.foldl_cons]
    rw [ih (a && b), ih (true && b)]
    simp [Bool.and_assoc]

theorem andAll_cons (b : Bool) (bs : List Bool) : andAll (b :: bs) = (b && andAll bs) := by
  simp only [andAll, List.foldl_cons]
  rw [foldl_and_acc]
  simp

/-- If every guard action either returns a boolean or raises AssertionError,
the gathered group either raises AssertionError or yields the list of
booleans. -/
theorem gather_benign {l : List Action}
    (hl : ∀ a ∈ l, a.result = .val true ∨ a.result = .val false ∨
      a.result = .exc .assertionError) :
    gatherResults l = .error .assertionError ∨ ∃ bs, gatherResults l = .ok bs := by
  induction l with
  | nil => exact Or.inr ⟨[], rfl⟩
  | cons a rest ih =>
    have ha := hl a (List.mem_cons_self a rest)
    have ihr := ih (fun a2 h2 => hl a2 (List.mem_cons_of_mem a h2))
    rcases ha with ha | ha | ha
    · rcases ihr with hr | ⟨bs, hr⟩
      · exact Or.inl (by simp [gatherResults, ha, hr])
      · exact Or.inr ⟨true :: bs, by simp [gatherResults, ha, hr]⟩
    · rcases ihr with hr | ⟨bs, hr⟩
      · exact Or.inl (by simp [gatherResults, ha, hr])
      · exact Or.inr ⟨false :: bs, by simp [gatherResults, ha, hr]⟩
    · exact Or.inl (by simp [gatherResults, ha])

/-- If every guard action is benign and at least one returns False or raises
AssertionError, the gathered group either raises AssertionError or yields a
list of booleans whose conjunction is false. -/
theorem gather_cancel {l : List Action}
    (hl : ∀ a ∈ l, a.result = .val true ∨ a.result = .val false ∨
      a.result = .exc .assertionError)
    (hx : ∃ a ∈ l, a.result = .val false ∨ a.result = .exc .assertionError) :
    gatherResults l = .error .assertionError ∨
      ∃ bs, gatherResults l = .ok bs ∧ andAll bs = false := by
  induction l with
  | nil => rcases hx with ⟨a, ha, _⟩; cases ha
  | cons a rest ih =>
    have ha := hl a (List.mem_cons_self a rest)
    have hlr : ∀ a2 ∈ rest, a2.result = .val true ∨ a2.result = .val false ∨
        a2.result = .exc .assertionError :=
      fun a2 h2 => hl a2 (List.mem_cons_of_mem a h2)
    rcases ha with ha | ha | ha
    · -- head returned True: the witness lies in the tail
      have hxr : ∃ a2 ∈ rest, a2.result = .val false ∨ a2.result = .exc .assertionError := by
        rcases hx with ⟨a2, h2, hres⟩
        rcases List.mem_cons.mp h2 with rfl | h2
        · rcases hres with hres | hres <;> rw [ha] at hres <;> cases hres
        · exact ⟨a2, h2, hres⟩
      rcases ih hlr hxr with hr | ⟨bs, hr, hall⟩
      · exact Or.inl (by simp [gatherResults, ha, hr])
      · exact Or.inr ⟨true :: bs, by simp [gatherResults, ha, hr], by
          rw [andAll_cons, hall]; simp⟩
    · -- head returned False
      rcases gather_benign hlr with hr | ⟨bs, hr⟩
      · exact Or.inl (by simp [gatherResults, ha, hr])
      · exact Or.inr ⟨false :: bs, by simp [gatherResults, ha, hr], by
          rw [andAll_cons]; simp⟩
    · -- head raised AssertionError
      exact Or.inl (by simp [gatherResults, ha])

/-- When the mutation phase succeeds, its trace is the exit group, the
on-transition hook, the on event actions, and the entry group, in that
order. -/
theorem mutationPhase_ok_trace {h : Hooks} {t : Transition} {mt : List TraceEntry} {u : Unit}
    (hm : mutationPhase h t = (mt, .ok u)) :
    mt = actionTrace (exitGroup t) ++ [.onHook] ++ actionTrace (eventActions t.event .on)
      ++ actionTrace (entryGroup t) := by
  unfold mutationPhase at hm
  rcases hx : gatherResults (exitGroup t) with e1 | u1 <;> rw [hx] at hm
  · cases hm
  · rcases ho : h.onTransition with b | e1 <;> rw [ho] at hm
    · rcases hn : gatherResults (eventActions t.event .on) with e1 | u2 <;> rw [hn] at hm
      · cases hm
      · rcases he : gatherResults (entryGroup t) with e1 | u3 <;> rw [he] at hm
        · cases hm
        · cases hm; rfl
    · cases hm

/-- Every entry of the mutation-phase trace is the on-transition hook, an
on event action, or - only for transition types that run exit and entry
actions - an exit or entry action. -/
theorem mutationPhase_trace_shape {h : Hooks} {t : Transition} {mt : List TraceEntry}
    {r : Except Exc Unit} {e : TraceEntry} (hm : mutationPhase h t = (mt, r)) (he : e ∈ mt) :
    e = .onHook ∨ (∃ i, e = .act i .on) ∨
      (doExitEntry t.type = true ∧ ∃ i, e = .act i .exit ∨ e = .act i .entry) := by
  have shape : ∀ e2 ∈ actionTrace (exitGroup t) ++ [TraceEntry.onHook]
      ++ actionTrace (eventActions t.event .on) ++ actionTrace (entryGroup t),
      e2 = .onHook ∨ (∃ i, e2 = .act i .on) ∨
        (doExitEntry t.type = true ∧ ∃ i, e2 = .act i .exit ∨ e2 = .act i .entry) := by
    intro e2 h2
    simp only [List.mem_append, List.mem_singleton] at h2
    rcases h2 with ((h2 | h2) | h2) | h2
    · rcases mem_actionTrace_exitGroup h2 with ⟨hd, i, hi⟩
      exact Or.inr (Or.inr ⟨hd, i, Or.inl hi⟩)
    · exact Or.inl h2
    · rcases mem_actionTrace_eventActions h2 with ⟨i, hi⟩
      exact Or.inr (Or.inl ⟨i, hi⟩)
    · rcases mem_actionTrace_entryGroup h2 with ⟨hd, i, hi⟩
      exact Or.inr (Or.inr ⟨hd, i, Or.inr hi⟩)
  unfold mutationPhase at hm
  rcases hx : gatherResults (exitGroup t) with e1 | u1 <;> rw [hx] at hm
  · cases hm
    exact shape e (by simp only [List.mem_append]; exact Or.inl (Or.inl (Or.inl he)))
  · rcases ho : h.onTransition with b | e1 <;> rw [ho] at hm
    · rcases hn : gatherResults (eventActions t.event .on) with e1 | u2 <;> rw [hn] at hm
      · cases hm
        exact shape e (by
          simp only [List.mem_append, List.mem_singleton] at he ⊢
          tauto)
      · rcases hee : gatherResults (entryGroup t) with e1 | u3 <;> rw [hee] at hm
        · cases hm; exact shape e he
        · cases hm; exact shape e he
    · cases hm
      exact shape e (by
        simp only [List.mem_append, List.mem_singleton] at he ⊢
        tauto)

/-- C4: a Transition executes at most once. If `started_at` is already
non-null, a second invocation of the call operator raises RuntimeError
immediately: no hook or action is invoked (empty trace), the current-state
pointer of the machine is untouched, and the bookkeeping fields of the
transition are unchanged. -/
theorem transition_executes_at_most_once (h : Hooks) (t : Transition) (cur : Option State)
    (now n : Nat) (hst : t.startedAt = some n) :
    transCall h t cur now =
      ⟨.exc .runtimeError, [], cur, t.cancelled, t.startedAt, t.finishedAt⟩ := by
  simp [transCall, hst]

theorem transition_executes_at_most_once_witness :
    transCall {} { target := { name := "a" }, type := .external, startedAt := some 0 } none 5 =
      ⟨.exc .runtimeError, [], none, none, some 0, none⟩ :=
  transition_executes_at_most_once {} _ none 5 0 rfl

/-- C2: if any step of the mutation phase (source exit actions, the
on-transition hook, on event actions, target entry actions) raises, the
current-state pointer is set to the pre-transition source, the same
exception propagates to the caller, and the trace still records every hook
and action invoked up to the failure (nothing already run is undone). -/
theorem mutation_failure_reverts_and_propagates (h : Hooks) (t : Transition)
    (cur : Option State) (now : Nat) (e : Exc) (bs rs : List Bool) (mt : List TraceEntry)
    (hst : t.startedAt = none)
    (hg : h.guardTransition = .val true)
    (hb : h.beforeTransition.isVal = true)
    (hgr : gatherResults (eventActions t.event .guard) = .ok bs)
    (hall : andAll bs = true)
    (hbr : gatherResults (eventActions t.event .before) = .ok rs)
    (hm : mutationPhase h t = (mt, .error e)) :
    transCall h t cur now =
      ⟨.exc e,
        [.guardHook, .beforeHook] ++ actionTrace (eventActions t.event .guard)
          ++ actionTrace (eventActions t.event .before) ++ mt,
        t.source, some false, some now, some (now + 1)⟩ := by
  rcases hbv : h.beforeTransition with b | e2
  · simp [transCall, hst, hg, hbv, hgr, hall, hbr, hm]
  · rw [hbv] at hb; simp [Res.isVal] at hb

theorem mutation_failure_reverts_and_propagates_witness :
    transCall { onTransition := .exc (.err 7) }
      { source := some { name := "a" }, target := { name := "b" }, type := .external }
      (some { name := "a" }) 0 =
      ⟨.exc (.err 7), [.guardHook, .beforeHook, .onHook],
        some { name := "a" }, some false, some 0, some 1⟩ := by
  have h := mutation_failure_reverts_and_propagates { onTransition := .exc (.err 7) }
    { source := some { name := "a" }, target := { name := "b" }, type := .external }
    (some { name := "a" }) 0 (.err 7) [] [] [.onHook] rfl rfl rfl rfl rfl rfl rfl
  simpa using h

theorem act_not_mem_cancel_trace {ev : Option Event} {i : Nat} {ty2 : ActionType}
    (hne : ty2 ≠ .guard) :
    TraceEntry.act i ty2 ∉
      [TraceEntry.guardHook, TraceEntry.beforeHook] ++ actionTrace (eventActions ev .guard) := by
  intro hmem
  rcases List.mem_append.mp hmem with h1 | h1
  · simp at h1
  · exact act_not_mem_eventActions hne h1

/-- C1 counterexample: the claim quantifies over every execution in which
some guard-tagged event action yields false, and asserts that the call then
returns false with `cancelled = True`. In the code, `asyncio.gather`
propagates the first exception of the group, and only AssertionError is
caught: with guard actions [raises ValueError, returns False], the second
action yields false, yet the call propagates the ValueError and leaves
`cancelled = False`. -/
theorem guard_rejection_counterexample :
    (eventActions (some ⟨"go", none, [], ⟨"b", none, []⟩, none,
        [⟨0, .guard, .exc (.err 0)⟩, ⟨1, .guard, .val false⟩]⟩) .guard).any
      (fun a => decide (a.result = .val false)) = true ∧
    (transCall {} ⟨some ⟨"a", none, []⟩, ⟨"b", none, []⟩,
        some ⟨"go", none, [], ⟨"b", none, []⟩, none,
          [⟨0, .guard, .exc (.err 0)⟩, ⟨1, .guard, .val false⟩]⟩,
        .external, none, none, none⟩
      (some ⟨"a", none, []⟩) 0).ret = .exc (.err 0) ∧
    (transCall {} ⟨some ⟨"a", none, []⟩, ⟨"b", none, []⟩,
        some ⟨"go", none, [], ⟨"b", none, []⟩, none,
          [⟨0, .guard, .exc (.err 0)⟩, ⟨1, .guard, .val false⟩]⟩,
        .external, none, none, none⟩
      (some ⟨"a", none, []⟩) 0).cancelled = some false := by
  refine ⟨by decide, ?_, ?_⟩ <;> rfl

/-- C1 (amended): if the machine guard hook returns false or raises
AssertionError, or if the guard hook passes, the before-transition hook does
not raise, every guard-tagged event action either returns a boolean or
raises AssertionError, and at least one returns false or raises
AssertionError, then the call returns false without propagating an error,
`cancelled` is set to true, the current-state pointer is unchanged, and no
before-, on-, or after-tagged event action is invoked. -/
theorem guard_rejection_cancels (h : Hooks) (t : Transition) (cur : Option State) (now : Nat)
    (hst : t.startedAt = none)
    (hcase : h.guardTransition = .val false ∨ h.guardTransition = .exc .assertionError ∨
      (h.guardTransition = .val true ∧ h.beforeTransition.isVal = true ∧
        (∀ a ∈ eventActions t.event .guard, a.result = .val true ∨ a.result = .val false ∨
          a.result = .exc .assertionError) ∧
        (∃ a ∈ eventActions t.event .guard, a.result = .val false ∨
          a.result = .exc .assertionError))) :
    (transCall h t cur now).ret = .val false ∧
    (transCall h t cur now).cancelled = some true ∧
    (transCall h t cur now).final = cur ∧
    ∀ i, TraceEntry.act i .before ∉ (transCall h t cur now).trace ∧
         TraceEntry.act i .on ∉ (transCall h t cur now).trace ∧
         TraceEntry.act i .after ∉ (transCall h t cur now).trace := by
  rcases hcase with hg | hg | ⟨hg, hbv, hbenign, hex⟩
  · have hres : transCall h t cur now =
        ⟨.val false, [.guardHook], cur, some true, some now, some (now + 1)⟩ := by
      simp [transCall, hst, hg]
    rw [hres]
    exact ⟨rfl, rfl, rfl, fun i => ⟨by simp, by simp, by simp⟩⟩
  · have hres : transCall h t cur now =
        ⟨.val false, [.guardHook], cur, some true, some now, some (now + 1)⟩ := by
      simp [transCall, hst, hg]
    rw [hres]
    exact ⟨rfl, rfl, rfl, fun i => ⟨by simp, by simp, by simp⟩⟩
  · rcases hbvv : h.beforeTransition with b | e2
    · have hres : transCall h t cur now =
          ⟨.val false, [.guardHook, .beforeHook] ++ actionTrace (eventActions t.event .guard),
            cur, some true, some now, some (now + 1)⟩ := by
        rcases gather_cancel hbenign hex with herr | ⟨bs, hok, hfalse⟩
        · simp [transCall, hst, hg, hbvv, herr]
        · simp [transCall, hst, hg, hbvv, hok, hfalse]
      rw [hres]
      refine ⟨rfl, rfl, rfl, fun i => ⟨?_, ?_, ?_⟩⟩ <;>
        exact act_not_mem_cancel_trace (by decide)
    · rw [hbvv] at hbv; simp [Res.isVal] at hbv

theorem guard_rejection_cancels_witness :
    (transCall { guardTransition := .val false }
      { target := { name := "b" }, type := .external } (some { name := "a" }) 0).ret
        = .val false ∧
    (transCall { guardTransition := .val false }
      { target := { name := "b" }, type := .external } (some { name := "a" }) 0).cancelled
        = some true ∧
    (transCall { guardTransition := .val false }
      { target := { name := "b" }, type := .external } (some { name := "a" }) 0).final
        = some { name := "a" } ∧
    ∀ i, TraceEntry.act i .before ∉ (transCall { guardTransition := .val false }
           { target := { name := "b" }, type := .external } (some { name := "a" }) 0).trace ∧
         TraceEntry.act i .on ∉ (transCall { guardTransition := .val false }
           { target := { name := "b" }, type := .external } (some { name := "a" }) 0).trace ∧
         TraceEntry.act i .after ∉ (transCall { guardTransition := .val false }
           { target := { name := "b" }, type := .external } (some { name := "a" }) 0).trace :=
  guard_rejection_cancels { guardTransition := .val false }
    { target := { name := "b" }, type := .external } (some { name := "a" }) 0 rfl
    (Or.inl rfl)

/-- Whether the `guard_transition` hook allowed the transition: a true
return; a false return or any exception does not pass. -/
def guardHookPassed (h : Hooks) : Bool :=
  match h.guardTransition with
  | .val b => b
  | .exc _ => false

/-- Whether the gathered guard-tagged event actions allowed the transition:
no exception and a true conjunction of the returned booleans. -/
def guardActionsPassed (t : Transition) : Bool :=
  match gatherResults (eventActions t.event .guard) with
  | .ok bs => andAll bs
  | .error _ => false

/-- C3 counterexample: the claim asserts that the `before_transition` hook
is invoked only after every guard (hook and actions) has passed. In the
code the hook runs at line 838, before the guard-tagged actions run at line
841: with a single guard action returning False, the before-transition hook
is invoked even though the guard actions did not pass. -/
theorem guard_before_ordering_counterexample :
    TraceEntry.beforeHook ∈
      (transCall {} ⟨some ⟨"a", none, []⟩, ⟨"b", none, []⟩,
        some ⟨"go", none, [], ⟨"b", none, []⟩, none, [⟨0, .guard, .val false⟩]⟩,
        .external, none, none, none⟩ (some ⟨"a", none, []⟩) 0).trace ∧
    guardActionsPassed ⟨some ⟨"a", none, []⟩, ⟨"b", none, []⟩,
        some ⟨"go", none, [], ⟨"b", none, []⟩, none, [⟨0, .guard, .val false⟩]⟩,
        .external, none, none, none⟩ = false ∧
    (transCall {} ⟨some ⟨"a", none, []⟩, ⟨"b", none, []⟩,
        some ⟨"go", none, [], ⟨"b", none, []⟩, none, [⟨0, .guard, .val false⟩]⟩,
        .external, none, none, none⟩ (some ⟨"a", none, []⟩) 0).trace =
      [.guardHook, .beforeHook, .act 0 .guard] := by
  refine ⟨by decide, by decide, by decide⟩

/-- C3 (amended): ordering of the guard and before phases as implemented.
The before-tagged event actions are invoked only after the guard hook and
all guard-tagged actions have passed; the `before_transition` hook is
invoked only after the guard hook has passed; but the hook runs before the
guard-tagged actions, so whenever guard actions were invoked the
before-transition hook had already been invoked. -/
theorem guard_before_ordering (h : Hooks) (t : Transition) (cur : Option State) (now : Nat) :
    ((∃ i, TraceEntry.act i .before ∈ (transCall h t cur now).trace) →
      guardHookPassed h = true ∧ guardActionsPassed t = true) ∧
    (TraceEntry.beforeHook ∈ (transCall h t cur now).trace → guardHookPassed h = true) ∧
    ((∃ i, TraceEntry.act i .guard ∈ (transCall h t cur now).trace) →
      TraceEntry.beforeHook ∈ (transCall h t cur now).trace ∧ guardHookPassed h = true) := by
  rcases hst : t.startedAt with _ | n
  case some =>
    have hres : transCall h t cur now =
        ⟨.exc .runtimeError, [], cur, t.cancelled, t.startedAt, t.finishedAt⟩ := by
      simp [transCall, hst]
    rw [hres]
    exact ⟨by rintro ⟨i, hi⟩; simp at hi, by intro hb; simp at hb,
      by rintro ⟨i, hi⟩; simp at hi⟩
  case none =>
  rcases hg : h.guardTransition with b | e
  case exc =>
    have hres : (transCall h t cur now).trace = [.guardHook] := by
      cases e <;> simp [transCall, hst, hg]
    rw [hres]
    exact ⟨by rintro ⟨i, hi⟩; simp at hi, by intro hb; simp at hb,
      by rintro ⟨i, hi⟩; simp at hi⟩
  case val =>
  cases b
  case false =>
    have hres : (transCall h t cur now).trace = [.guardHook] := by
      simp [transCall, hst, hg]
    rw [hres]
    exact ⟨by rintro ⟨i, hi⟩; simp at hi, by intro hb; simp at hb,
      by rintro ⟨i, hi⟩; simp at hi⟩
  case true =>
  have hghp : guardHookPassed h = true := by simp [guardHookPassed, hg]
  rcases hbv : h.beforeTransition with b2 | e2
  case exc =>
    have hres : (transCall h t cur now).trace = [.guardHook, .beforeHook] := by
      simp [transCall, hst, hg, hbv]
    rw [hres]
    exact ⟨by rintro ⟨i, hi⟩; simp at hi, fun _ => hghp,
      by rintro ⟨i, hi⟩; simp at hi⟩
  case val =>
  rcases hgr : gatherResults (eventActions t.event .guard) with e3 | bs
  case error =>
    have hres : (transCall h t cur now).trace =
        [.guardHook, .beforeHook] ++ actionTrace (eventActions t.event .guard) := by
      cases e3 <;> simp [transCall, hst, hg, hbv, hgr]
    rw [hres]
    refine ⟨?_, fun _ => hghp, ?_⟩
    · rintro ⟨i, hi⟩
      exact absurd hi (act_not_mem_cancel_trace (by decide))
    · rintro ⟨i, _⟩
      exact ⟨by simp, hghp⟩
  case ok =>
  have hgap : guardActionsPassed t = andAll bs := by simp [guardActionsPassed, hgr]
  cases hall : andAll bs
  case false =>
    have hres : (transCall h t cur now).trace =
        [.guardHook, .beforeHook] ++ actionTrace (eventActions t.event .guard) := by
      simp [transCall, hst, hg, hbv, hgr, hall]
    rw [hres]
    refine ⟨?_, fun _ => hghp, ?_⟩
    · rintro ⟨i, hi⟩
      exact absurd hi (act_not_mem_cancel_trace (by decide))
    · rintro ⟨i, _⟩
      exact ⟨by simp, hghp⟩
  case true =>
  have hpassed : guardHookPassed h = true ∧ guardActionsPassed t = true :=
    ⟨hghp, by rw [hgap, hall]⟩
  rcases hbr : gatherResults (eventActions t.event .before) with e4 | rs
  case error =>
    have hres : (transCall h t cur now).trace =
        [.guardHook, .beforeHook] ++ actionTrace (eventActions t.event .guard)
          ++ actionTrace (eventActions t.event .before) := by
      simp [transCall, hst, hg, hbv, hgr, hall, hbr]
    rw [hres]
    exact ⟨fun _ => hpassed, fun _ => hghp, fun _ => ⟨by simp, hghp⟩⟩
  case ok =>
  rcases hm : mutationPhase h t with ⟨mt, mr⟩
  rcases mr with e5 | u5
  case error =>
    have hres : (transCall h t cur now).trace =
        [.guardHook, .beforeHook] ++ actionTrace (eventActions t.event .guard)
          ++ actionTrace (eventActions t.event .before) ++ mt := by
      simp [transCall, hst, hg, hbv, hgr, hall, hbr, hm]
    rw [hres]
    exact ⟨fun _ => hpassed, fun _ => hghp, fun _ => ⟨by simp, hghp⟩⟩
  case ok =>
  rcases har : gatherResults (eventActions t.event .after) with e6 | rs2
  case error =>
    have hres : (transCall h t cur now).trace =
        [.guardHook, .beforeHook] ++ actionTrace (eventActions t.event .guard)
          ++ actionTrace (eventActions t.event .before) ++ mt
          ++ actionTrace (eventActions t.event .after) := by
      simp [transCall, hst, hg, hbv, hgr, hall, hbr, hm, har]
    rw [hres]
    exact ⟨fun _ => hpassed, fun _ => hghp, fun _ => ⟨by simp, hghp⟩⟩
  case ok =>
  rcases haf : h.afterTransition with b7 | e7 <;>
  · have hres : (transCall h t cur now).trace =
        [.guardHook, .beforeHook] ++ actionTrace (eventActions t.event .guard)
          ++ actionTrace (eventActions t.event .before) ++ mt
          ++ actionTrace (eventActions t.event .after) ++ [.afterHook] := by
      simp [transCall, hst, hg, hbv, hgr, hall, hbr, hm, har, haf]
    rw [hres]
    exact ⟨fun _ => hpassed, fun _ => hghp, fun _ => ⟨by simp, hghp⟩⟩

theorem guard_before_ordering_witness :
    guardHookPassed {} = true ∧
    guardActionsPassed ⟨some ⟨"a", none, []⟩, ⟨"b", none, []⟩,
      some ⟨"go", none, [], ⟨"b", none, []⟩, none, [⟨5, .before, .val true⟩]⟩,
      .external, none, none, none⟩ = true :=
  (guard_before_ordering {} ⟨some ⟨"a", none, []⟩, ⟨"b", none, []⟩,
      some ⟨"go", none, [], ⟨"b", none, []⟩, none, [⟨5, .before, .val true⟩]⟩,
      .external, none, none, none⟩ (some ⟨"a", none, []⟩) 0).1 ⟨5, by decide⟩

/-- Every trace entry of a call lies in the full phase concatenation:
hooks, guard actions, before actions, mutation-phase trace, after actions,
after hook. Each branch of the call produces a prefix of this list. -/
theorem transCall_trace_sub (h : Hooks) (t : Transition) (cur : Option State) (now : Nat)
    {e : TraceEntry} (he : e ∈ (transCall h t cur now).trace) :
    e ∈ [TraceEntry.guardHook, TraceEntry.beforeHook]
      ++ actionTrace (eventActions t.event .guard)
      ++ actionTrace (eventActions t.event .before) ++ (mutationPhase h t).1
      ++ actionTrace (eventActions t.event .after) ++ [TraceEntry.afterHook] := by
  rcases hst : t.startedAt with _ | n
  case some =>
    rw [show (transCall h t cur now).trace = [] by simp [transCall, hst]] at he
    simp at he
  case none =>
  rcases hg : h.guardTransition with b | e1
  case exc =>
    rw [show (transCall h t cur now).trace = [.guardHook] by
      cases e1 <;> simp [transCall, hst, hg]] at he
    simp only [List.mem_append, List.mem_cons, List.not_mem_nil, List.mem_singleton] at he ⊢
    tauto
  case val =>
  cases b
  case false =>
    rw [show (transCall h t cur now).trace = [.guardHook] by simp [transCall, hst, hg]] at he
    simp only [List.mem_append, List.mem_cons, List.not_mem_nil, List.mem_singleton] at he ⊢
    tauto
  case true =>
  rcases hbv : h.beforeTransition with b2 | e2
  case exc =>
    rw [show (transCall h t cur now).trace = [.guardHook, .beforeHook] by
      simp [transCall, hst, hg, hbv]] at he
    simp only [List.mem_append, List.mem_cons, List.not_mem_nil, List.mem_singleton] at he ⊢
    tauto
  case val =>
  rcases hgr : gatherResults (eventActions t.event .guard) with e3 | bs
  case error =>
    rw [show (transCall h t cur now).trace =
        [.guardHook, .beforeHook] ++ actionTrace (eventActions t.event .guard) by
      cases e3 <;> simp [transCall, hst, hg, hbv, hgr]] at he
    simp only [List.mem_append, List.mem_cons, List.not_mem_nil, List.mem_singleton] at he ⊢
    tauto
  case ok =>
  cases hall : andAll bs
  case false =>
    rw [show (transCall h t cur now).trace =
        [.guardHook, .beforeHook] ++ actionTrace (eventActions t.event .guard) by
      simp [transCall, hst, hg, hbv, hgr, hall]] at he
    simp only [List.mem_append, List.mem_cons, List.not_mem_nil, List.mem_singleton] at he ⊢
    tauto
  case true =>
  rcases hbr : gatherResults (eventActions t.event .before) with e4 | rs
  case error =>
    rw [show (transCall h t cur now).trace =
        [.guardHook, .beforeHook] ++ actionTrace (eventActions t.event .guard)
          ++ actionTrace (eventActions t.event .before) by
      simp [transCall, hst, hg, hbv, hgr, hall, hbr]] at he
    simp only [List.mem_append, List.mem_cons, List.not_mem_nil, List.mem_singleton] at he ⊢
    tauto
  case ok =>
  rcases hm : mutationPhase h t with ⟨mt, mr⟩
  rcases mr with e5 | u5
  case error =>
    rw [show (transCall h t cur now).trace =
        [.guardHook, .beforeHook] ++ actionTrace (eventActions t.event .guard)
          ++ actionTrace (eventActions t.event .before) ++ mt by
      simp [transCall, hst, hg, hbv, hgr, hall, hbr, hm]] at he
    dsimp only
    simp only [List.mem_append, List.mem_cons, List.not_mem_nil, List.mem_singleton] at he ⊢
    tauto
  case ok =>
  rcases har : gatherResults (eventActions t.event .after) with e6 | rs2
  case error =>
    rw [show (transCall h t cur now).trace =
        [.guardHook, .beforeHook] ++ actionTrace (eventActions t.event .guard)
          ++ actionTrace (eventActions t.event .before) ++ mt
          ++ actionTrace (eventActions t.event .after) by
      simp [transCall, hst, hg, hbv, hgr, hall, hbr, hm, har]] at he
    dsimp only
    simp only [List.mem_append, List.mem_cons, List.not_mem_nil, List.mem_singleton] at he ⊢
    tauto
  case ok =>
  rcases haf : h.afterTransition with b7 | e7 <;>
  · rw [show (transCall h t cur now).trace =
        [.guardHook, .beforeHook] ++ actionTrace (eventActions t.event .guard)
          ++ actionTrace (eventActions t.event .before) ++ mt
          ++ actionTrace (eventActions t.event .after) ++ [.afterHook] by
      simp [transCall, hst, hg, hbv, hgr, hall, hbr, hm, har, haf]] at he
    dsimp only
    simp only [List.mem_append, List.mem_cons, List.not_mem_nil, List.mem_singleton] at he ⊢
    tauto

/-- Shape of any trace entry of a call: a hook, an event action of one of
the four event action types, or - only for transition types that run exit
and entry actions - an exit or entry action. -/
theorem transCall_trace_shape (h : Hooks) (t : Transition) (cur : Option State) (now : Nat)
    {e : TraceEntry} (he : e ∈ (transCall h t cur now).trace) :
    e = .guardHook ∨ e = .beforeHook ∨ e = .onHook ∨ e = .afterHook ∨
      (∃ i, e = .act i .guard ∨ e = .act i .before ∨ e = .act i .on ∨ e = .act i .after) ∨
      (doExitEntry t.type = true ∧ ∃ i, e = .act i .exit ∨ e = .act i .entry) := by
  have hsub := transCall_trace_sub h t cur now he
  simp only [List.mem_append, List.mem_cons, List.not_mem_nil, List.mem_singleton,
    or_false] at hsub
  rcases hsub with ((((hx | hx) | hx) | hx) | hx) | hx
  · rcases hx with hx | hx
    · exact Or.inl hx
    · exact Or.inr (Or.inl hx)
  · rcases mem_actionTrace_eventActions hx with ⟨i, rfl⟩
    exact Or.inr (Or.inr (Or.inr (Or.inr (Or.inl ⟨i, Or.inl rfl⟩))))
  · rcases mem_actionTrace_eventActions hx with ⟨i, rfl⟩
    exact Or.inr (Or.inr (Or.inr (Or.inr (Or.inl ⟨i, Or.inr (Or.inl rfl)⟩))))
  · rcases mutationPhase_trace_shape rfl hx with hy | ⟨i, rfl⟩ | ⟨hd, i, hy⟩
    · exact Or.inr (Or.inr (Or.inl hy))
    · exact Or.inr (Or.inr (Or.inr (Or.inr (Or.inl ⟨i, Or.inr (Or.inr (Or.inl rfl))⟩))))
    · exact Or.inr (Or.inr (Or.inr (Or.inr (Or.inr ⟨hd, i, hy⟩))))
  · rcases mem_actionTrace_eventActions hx with ⟨i, rfl⟩
    exact Or.inr (Or.inr (Or.inr (Or.inr (Or.inl ⟨i, Or.inr (Or.inr (Or.inr rfl))⟩))))
  · exact Or.inr (Or.inr (Or.inr (Or.inl hx)))

/-- A successful call (returned True) ran the mutation phase to completion
and its trace is the full phase concatenation. -/
theorem transCall_success (h : Hooks) (t : Transition) (cur : Option State) (now : Nat)
    (hsucc : (transCall h t cur now).ret = .val true) :
    (mutationPhase h t).2 = .ok () ∧
    (transCall h t cur now).trace =
      [TraceEntry.guardHook, TraceEntry.beforeHook]
        ++ actionTrace (eventActions t.event .guard)
        ++ actionTrace (eventActions t.event .before) ++ (mutationPhase h t).1
        ++ actionTrace (eventActions t.event .after) ++ [TraceEntry.afterHook] := by
  rcases hst : t.startedAt with _ | n
  case some => simp [transCall, hst] at hsucc
  case none =>
  rcases hg : h.guardTransition with b | e1
  case exc => cases e1 <;> simp [transCall, hst, hg] at hsucc
  case val =>
  cases b
  case false => simp [transCall, hst, hg] at hsucc
  case true =>
  rcases hbv : h.beforeTransition with b2 | e2
  case exc => simp [transCall, hst, hg, hbv] at hsucc
  case val =>
  rcases hgr : gatherResults (eventActions t.event .guard) with e3 | bs
  case error => cases e3 <;> simp [transCall, hst, hg, hbv, hgr] at hsucc
  case ok =>
  cases hall : andAll bs
  case false => simp [transCall, hst, hg, hbv, hgr, hall] at hsucc
  case true =>
  rcases hbr : gatherResults (eventActions t.event .before) with e4 | rs
  case error => simp [transCall, hst, hg, hbv, hgr, hall, hbr] at hsucc
  case ok =>
  rcases hm : mutationPhase h t with ⟨mt, mr⟩
  rcases mr with e5 | ⟨⟩
  case error => simp [transCall, hst, hg, hbv, hgr, hall, hbr, hm] at hsucc
  rcases har : gatherResults (eventActions t.event .after) with e6 | rs2
  case error => simp [transCall, hst, hg, hbv, hgr, hall, hbr, hm, har] at hsucc
  case ok =>
  rcases haf : h.afterTransition with b7 | e7
  case exc => simp [transCall, hst, hg, hbv, hgr, hall, hbr, hm, har, haf] at hsucc
  case val =>
  exact ⟨rfl, by simp [transCall, hst, hg, hbv, hgr, hall, hbr, hm, har, haf]⟩

theorem stateActions_type_eq {s : Option State} {ty : ActionType} {a : Action}
    (ha : a ∈ stateActions s ty) : a.type = ty := by
  cases s with
  | none => simp [stateActions] at ha
  | some s0 => exact getActions_type_eq ha

/-- C5: for every Transition built by the validated constructor, an internal
transition has source equal to target (State equality as implemented) and no
execution of it ever invokes an exit- or entry-tagged action; a self
transition also has source equal to target, yet every execution that
completes successfully invokes all exit-tagged actions of the source and all
entry-tagged actions of the target. -/
theorem internal_and_self_transitions (h : Hooks) (cur : Option State) (now : Nat)
    (s : Option State) (tgt : State) (ev : Option Event) (ty : Option TrType)
    (t : Transition) (hmk : mkTransition s tgt ev ty = some t) :
    (t.type = .internal →
      pyStateEqOpt t.target t.source = true ∧
      ∀ i, TraceEntry.act i .exit ∉ (transCall h t cur now).trace ∧
           TraceEntry.act i .entry ∉ (transCall h t cur now).trace) ∧
    (t.type = .self →
      pyStateEqOpt t.target t.source = true ∧
      ((transCall h t cur now).ret = .val true →
        (∀ a ∈ stateActions t.source .exit,
          TraceEntry.act a.id .exit ∈ (transCall h t cur now).trace) ∧
        (∀ a ∈ stateActions (some t.target) .entry,
          TraceEntry.act a.id .entry ∈ (transCall h t cur now).trace))) := by
  have hvalid : typeInvariant t = true := by
    unfold mkTransition at hmk
    rcases hcond : validTypeFor s tgt (resolveType ev ty) with _ | _
    · rw [hcond] at hmk; simp at hmk
    · rw [hcond] at hmk
      simp only [if_true] at hmk
      cases hmk
      exact hcond
  constructor
  · intro hty
    refine ⟨?_, ?_⟩
    · unfold typeInvariant validTypeFor at hvalid
      rw [hty] at hvalid
      exact hvalid
    · intro i
      have hde : doExitEntry t.type = false := by rw [hty]; rfl
      constructor
      · intro hmem
        rcases transCall_trace_shape h t cur now hmem with hx | hx | hx | hx | ⟨j, hx⟩ | ⟨hd, _⟩
        · cases hx
        · cases hx
        · cases hx
        · cases hx
        · rcases hx with hx | hx | hx | hx <;> cases hx
        · rw [hde] at hd; cases hd
      · intro hmem
        rcases transCall_trace_shape h t cur now hmem with hx | hx | hx | hx | ⟨j, hx⟩ | ⟨hd, _⟩
        · cases hx
        · cases hx
        · cases hx
        · cases hx
        · rcases hx with hx | hx | hx | hx <;> cases hx
        · rw [hde] at hd; cases hd
  · intro hty
    refine ⟨?_, ?_⟩
    · unfold typeInvariant validTypeFor at hvalid
      rw [hty] at hvalid
      exact hvalid
    · intro hsucc
      have hde : doExitEntry t.type = true := by rw [hty]; rfl
      rcases transCall_success h t cur now hsucc with ⟨hok, htr⟩
      have hmt : (mutationPhase h t).1 =
          actionTrace (exitGroup t) ++ [.onHook] ++ actionTrace (eventActions t.event .on)
            ++ actionTrace (entryGroup t) := by
        have heta : mutationPhase h t = ((mutationPhase h t).1, Except.ok ()) := by
          rw [← hok]
        exact mutationPhase_ok_trace heta
      constructor
      · intro a ha
        have htyeq : a.type = ActionType.exit := stateActions_type_eq ha
        have hmem : TraceEntry.act a.id a.type ∈ actionTrace (exitGroup t) := by
          apply act_mem_actionTrace
          unfold exitGroup
          rw [hde]
          simpa using ha
        rw [htyeq] at hmem
        rw [htr, hmt]
        simp only [List.mem_append]
        tauto
      · intro a ha
        have htyeq : a.type = ActionType.entry := stateActions_type_eq ha
        have hmem : TraceEntry.act a.id a.type ∈ actionTrace (entryGroup t) := by
          apply act_mem_actionTrace
          unfold entryGroup
          rw [hde]
          simpa using ha
        rw [htyeq] at hmem
        rw [htr, hmt]
        simp only [List.mem_append]
        tauto

theorem internal_and_self_transitions_witness :
    (∀ a ∈ stateActions (some ⟨"a", none, [⟨1, .exit, .val true⟩, ⟨2, .entry, .val true⟩]⟩)
        .exit,
      TraceEntry.act a.id .exit ∈
        (transCall {} ⟨some ⟨"a", none, [⟨1, .exit, .val true⟩, ⟨2, .entry, .val true⟩]⟩,
          ⟨"a", none, [⟨1, .exit, .val true⟩, ⟨2, .entry, .val true⟩]⟩, none, .self,
          none, none, none⟩
          (some ⟨"a", none, [⟨1, .exit, .val true⟩, ⟨2, .entry, .val true⟩]⟩) 0).trace) ∧
    (∀ a ∈ stateActions (some ⟨"a", none, [⟨1, .exit, .val true⟩, ⟨2, .entry, .val true⟩]⟩)
        .entry,
      TraceEntry.act a.id .entry ∈
        (transCall {} ⟨some ⟨"a", none, [⟨1, .exit, .val true⟩, ⟨2, .entry, .val true⟩]⟩,
          ⟨"a", none, [⟨1, .exit, .val true⟩, ⟨2, .entry, .val true⟩]⟩, none, .self,
          none, none, none⟩
          (some ⟨"a", none, [⟨1, .exit, .val true⟩, ⟨2, .entry, .val true⟩]⟩) 0).trace) :=
  ((internal_and_self_transitions {}
      (some ⟨"a", none, [⟨1, .exit, .val true⟩, ⟨2, .entry, .val true⟩]⟩) 0
      (some ⟨"a", none, [⟨1, .exit, .val true⟩, ⟨2, .entry, .val true⟩]⟩)
      ⟨"a", none, [⟨1, .exit, .val true⟩, ⟨2, .entry, .val true⟩]⟩ none (some .self)
      ⟨some ⟨"a", none, [⟨1, .exit, .val true⟩, ⟨2, .entry, .val true⟩]⟩,
        ⟨"a", none, [⟨1, .exit, .val true⟩, ⟨2, .entry, .val true⟩]⟩, none, .self,
        none, none, none⟩ (by rfl)).2 rfl).2 (by rfl)

/-- C6: matching of a positional-or-keyword parameter. If the keyword pool
holds a same-named key, the parameter is bound from the keyword pool, the
matched positional collection is unchanged, and the positional pool loses
exactly its front element when non-empty (one value dequeued and
discarded); otherwise the parameter is bound from the front of the
positional pool when one is available, and the step is a no-op when the
positional pool is empty. -/
theorem positional_or_keyword_matching (s : MatchState) (p : Param) (v : Nat)
    (hk : p.kind = .positionalOrKeyword) :
    (kwLookup s.kwargsC p.name = some v →
      matchStep s p = ⟨s.argsC.tail, kwRemove s.kwargsC p.name, s.matchedArgs,
        s.matchedKwargs ++ [(p.name, v)]⟩) ∧
    (kwLookup s.kwargsC p.name = none → s.argsC = [] → matchStep s p = s) ∧
    (∀ a rest, kwLookup s.kwargsC p.name = none → s.argsC = a :: rest →
      matchStep s p = ⟨rest, s.kwargsC, s.matchedArgs ++ [a], s.matchedKwargs⟩) := by
  refine ⟨?_, ?_, ?_⟩
  · intro hkw
    rcases hargs : s.argsC with _ | ⟨a, rest⟩ <;>
      simp [matchStep, hk, hkw, hargs]
  · intro hkw hargs
    simp [matchStep, hk, hkw, hargs]
  · intro a rest hkw hargs
    simp [matchStep, hk, hkw, hargs]

theorem positional_or_keyword_matching_witness :
    matchStep ⟨[10, 20], [("x", 5)], [], []⟩ ⟨"x", .positionalOrKeyword⟩ =
      ⟨[20], [], [], [("x", 5)]⟩ :=
  (positional_or_keyword_matching ⟨[10, 20], [("x", 5)], [], []⟩
    ⟨"x", .positionalOrKeyword⟩ 5 rfl).1 rfl

/-- C7: constructing a Transition enforces the type invariant at validation
time. Every Transition the constructor produces satisfies the invariant of
its type, and construction succeeds exactly when the invariant holds: for
internal or self transitions, when source compares equal to target; for
external transitions, when they differ. -/
theorem transition_type_invariant (s : Option State) (tgt : State) (ev : Option Event)
    (ty : Option TrType) :
    (∀ t, mkTransition s tgt ev ty = some t → typeInvariant t = true) ∧
    ((resolveType ev ty = .internal ∨ resolveType ev ty = .self) →
      ((mkTransition s tgt ev ty).isSome = true ↔ pyStateEqOpt tgt s = true)) ∧
    (resolveType ev ty = .external →
      ((mkTransition s tgt ev ty).isSome = true ↔ pyStateEqOpt tgt s = false)) := by
  refine ⟨?_, ?_, ?_⟩
  · intro t hmk
    unfold mkTransition at hmk
    rcases hcond : validTypeFor s tgt (resolveType ev ty) with _ | _
    · rw [hcond] at hmk; simp at hmk
    · rw [hcond] at hmk
      simp only [if_true] at hmk
      cases hmk
      exact hcond
  · intro hty
    have hvt : validTypeFor s tgt (resolveType ev ty) = pyStateEqOpt tgt s := by
      rcases hty with hty | hty <;> rw [hty] <;> rfl
    unfold mkTransition
    rw [hvt]
    cases hpe : pyStateEqOpt tgt s <;> simp [hpe]
  · intro hty
    have hvt : validTypeFor s tgt (resolveType ev ty) = !pyStateEqOpt tgt s := by
      rw [hty]; rfl
    unfold mkTransition
    rw [hvt]
    cases hpe : pyStateEqOpt tgt s <;> simp [hpe]

theorem transition_type_invariant_witness :
    typeInvariant ⟨some ⟨"a", none, []⟩, ⟨"a", none, []⟩, none, .internal,
        none, none, none⟩ = true ∧
    (mkTransition (some ⟨"a", none, []⟩) ⟨"a", none, []⟩ none (some .internal)).isSome
      = true ∧
    (mkTransition (some ⟨"a", none, []⟩) ⟨"a", none, []⟩ none (some .external)).isSome
      = false :=
  ⟨(transition_type_invariant (some ⟨"a", none, []⟩) ⟨"a", none, []⟩ none
      (some .internal)).1
      ⟨some ⟨"a", none, []⟩, ⟨"a", none, []⟩, none, .internal, none, none, none⟩ rfl,
    ((transition_type_invariant (some ⟨"a", none, []⟩) ⟨"a", none, []⟩ none
      (some .internal)).2.1 (Or.inl rfl)).mpr (by decide),
    by
      have h := (transition_type_invariant (some ⟨"a", none, []⟩) ⟨"a", none, []⟩ none
        (some .external)).2.2 rfl
      rcases hs : (mkTransition (some ⟨"a", none, []⟩) ⟨"a", none, []⟩ none
          (some .external)).isSome with _ | _
      · rfl
      · have := h.mp hs
        simp [pyStateEqOpt, pyStateEq] at this⟩

/-- C8 counterexample: the claim asserts that a State record compares equal
to another State record exactly when the names are equal. State-to-State
comparison falls through to pydantic field equality, which also compares
the descriptions: two States with the same name and different descriptions
compare unequal. -/
theorem state_equality_counterexample :
    (State.mk "a" (some "x") []).name = (State.mk "a" (some "y") []).name ∧
    stateEqPy (State.mk "a" (some "x") []) (.state (State.mk "a" (some "y") [])) = false :=
  ⟨rfl, by decide⟩

/-- C8 (amended): comparison of a State against a raw string or a tagged
enum member is by name only; comparison against another State record is
pydantic field equality, comparing name and description; hashing is by name
only, so two States with equal names hash equally. -/
theorem state_equality_by_name (s o : State) (n d : String) :
    (stateEqPy s (.str n) = (s.name == n)) ∧
    (stateEqPy s (.enumMember n d) = (s.name == n)) ∧
    (stateEqPy s (.state o) = (s.name == o.name && s.description == o.description)) ∧
    (s.name = o.name → stateHash s = stateHash o) := by
  refine ⟨rfl, rfl, rfl, fun hn => ?_⟩
  simp [stateHash, hn]

theorem state_equality_by_name_witness :
    stateHash (State.mk "a" none []) = stateHash (State.mk "a" (some "x") []) :=
  (state_equality_by_name (State.mk "a" none []) (State.mk "a" (some "x") []) "" "").2.2.2
    rfl

/-- C9 counterexample: the claim asserts that, on any machine with no state
named like the sentinel, add_event with a sentinel-targeted event raises
the unknown-referenced-states failure. The duplicate-name check runs
first: when an event with the same name is already registered, add_event
raises the duplicate-name failure instead (the registry is still unchanged
and the event is still not registered). -/
theorem add_event_sentinel_counterexample :
    addEvent ⟨[⟨"s1", none, []⟩], [⟨"go", none, [], ⟨"s1", none, []⟩, none, []⟩]⟩
        ⟨"go", none, [], activeState, none, []⟩ =
      (⟨[⟨"s1", none, []⟩], [⟨"go", none, [], ⟨"s1", none, []⟩, none, []⟩]⟩,
        some .duplicateName) ∧
    AddEventErr.duplicateName ≠ AddEventErr.unknownStates ∧
    (∀ st ∈ (Machine.mk [⟨"s1", none, []⟩]
        [⟨"go", none, [], ⟨"s1", none, []⟩, none, []⟩]).states,
      st.name ≠ "__active__") :=
  ⟨by decide, by decide, by decide⟩

/-- C9 (amended): for every machine that has no registered state named like
the sentinel and no registered event sharing the name of the event being
added, add_event with an event targeting the active-state sentinel raises
the unknown-referenced-states failure and leaves the registries unchanged:
a sentinel-targeted event is never registered through add_event. -/
theorem add_event_sentinel_rejected (m : Machine) (e : Event)
    (hns : ∀ st ∈ m.states, st.name ≠ "__active__")
    (hne : getEventByName m e.name = none)
    (ht : e.target = activeState) :
    addEvent m e = (m, some .unknownStates) := by
  unfold addEvent
  rw [hne]
  simp only [Option.isSome_none, Bool.false_eq_true, if_false]
  have hact : inStateSet activeState m.states = false := by
    rw [Bool.eq_false_iff]
    intro hany
    rcases List.any_eq_true.mp hany with ⟨s2, hs2, hp⟩
    simp only [pyStateEq, Bool.and_eq_true, beq_iff_eq] at hp
    exact hns s2 hs2 hp.1.symm
  have hmem : (eventStates e).any (fun s => !inStateSet s m.states) = true := by
    apply List.any_eq_true.mpr
    refine ⟨e.target, ?_, ?_⟩
    · unfold eventStates
      simp
    · rw [ht, hact]
      rfl
  rw [hmem]
  simp

theorem add_event_sentinel_rejected_witness :
    addEvent ⟨[⟨"s1", none, []⟩], []⟩ ⟨"go", none, [], activeState, none, []⟩ =
      (⟨[⟨"s1", none, []⟩], []⟩, some .unknownStates) :=
  add_event_sentinel_rejected ⟨[⟨"s1", none, []⟩], []⟩
    ⟨"go", none, [], activeState, none, []⟩ (by decide) rfl rfl

/-- C10: the collection accessors return defensive copies. Each accessor
allocates a fresh list object holding the same elements as the owned
collection; in-place mutation of the returned object leaves the collection
owned by the machine (or state, event, history mixin) unchanged. -/
theorem accessors_return_defensive_copies {α : Type} (σ : Store α) (r : Nat)
    (f : List α → List α) (hr : r < σ.next) :
    ((statesProperty σ r).2.mem (statesProperty σ r).1 = σ.mem r) ∧
    (mutateList (statesProperty σ r).2 (statesProperty σ r).1 f).mem r = σ.mem r ∧
    (mutateList (eventsProperty σ r).2 (eventsProperty σ r).1 f).mem r = σ.mem r ∧
    (mutateList (actionsProperty σ r).2 (actionsProperty σ r).1 f).mem r = σ.mem r ∧
    (mutateList (historyProperty σ r).2 (historyProperty σ r).1 f).mem r = σ.mem r := by
  have hne : r ≠ σ.next := Nat.ne_of_lt hr
  refine ⟨?_, ?_, ?_, ?_, ?_⟩ <;>
    simp [statesProperty, eventsProperty, actionsProperty, historyProperty,
      copyList, Store.alloc, mutateList, hne]

theorem accessors_return_defensive_copies_witness :
    ((statesProperty (Store.mk (fun _ => [1, 2]) 1) 0).2.mem
        (statesProperty (Store.mk (fun _ => [1, 2]) 1) 0).1 =
      (Store.mk (fun _ => ([1, 2] : List Nat)) 1).mem 0) ∧
    (mutateList (statesProperty (Store.mk (fun _ => [1, 2]) 1) 0).2
        (statesProperty (Store.mk (fun _ => [1, 2]) 1) 0).1 (fun l => 3 :: l)).mem 0 =
      (Store.mk (fun _ => ([1, 2] : List Nat)) 1).mem 0 ∧
    (mutateList (eventsProperty (Store.mk (fun _ => [1, 2]) 1) 0).2
        (eventsProperty (Store.mk (fun _ => [1, 2]) 1) 0).1 (fun l => 3 :: l)).mem 0 =
      (Store.mk (fun _ => ([1, 2] : List Nat)) 1).mem 0 ∧
    (mutateList (actionsProperty (Store.mk (fun _ => [1, 2]) 1) 0).2
        (actionsProperty (Store.mk (fun _ => [1, 2]) 1) 0).1 (fun l => 3 :: l)).mem 0 =
      (Store.mk (fun _ => ([1, 2] : List Nat)) 1).mem 0 ∧
    (mutateList (historyProperty (Store.mk (fun _ => [1, 2]) 1) 0).2
        (historyProperty (Store.mk (fun _ => [1, 2]) 1) 0).1 (fun l => 3 :: l)).mem 0 =
      (Store.mk (fun _ => ([1, 2] : List Nat)) 1).mem 0 :=
  accessors_return_defensive_copies (Store.mk (fun _ => [1, 2]) 1) 0 (fun l => 3 :: l)
    (by decide)

end Statesman
